import Mathlib

/-!
Verification development for the synapse-app bookmark manager.

The definitions below are shallow embeddings of the TypeScript sources:
the content classifier (src/lib/contentDetector.ts), the tag utilities
(src/lib/ai.ts), the embedding utilities (src/lib/embeddings.ts), the
query parser fallback and reranker (src/lib/smartSearch.ts), and the
bookmark save pipeline (src/app/api/bookmarks/route.ts) together with the
keyword clause of the smart-search route
(src/app/api/bookmarks/smart-search/route.ts).

External calls (scraper fetch, Anthropic calls, embedding providers, the
database) are modelled as oracle inputs of type Except Unit, so that every
control path of the orchestrating code, including every catch branch, is a
case of a total Lean function.
-/

set_option autoImplicit false

namespace Synapse

/-! ### JavaScript string primitives, modelled on lists of characters -/

/-- Model of the JavaScript test of whether a character is in the range
A-Z, as used by toLowerCase on ASCII input. -/
def isUpperAscii (c : Char) : Bool :=
  65 ≤ c.toNat && c.toNat ≤ 90

/-- ASCII lowering of one character, the fragment of the JavaScript
toLowerCase relevant to this codebase. -/
def lowerChar (c : Char) : Char :=
  if isUpperAscii c then Char.ofNat (c.toNat + 32) else c

/-- Model of the JavaScript toLowerCase, applied characterwise. -/
def strLower (s : String) : String :=
  ⟨s.data.map lowerChar⟩

/-- Model of the JavaScript String.prototype.trim on a character list. -/
def trimChars (l : List Char) : List Char :=
  ((l.dropWhile Char.isWhitespace).reverse.dropWhile Char.isWhitespace).reverse

/-- Model of the JavaScript String.prototype.trim. -/
def strTrim (s : String) : String :=
  ⟨trimChars s.data⟩

/-- Model of the JavaScript String.prototype.includes on character
lists: some tail of the haystack starts with the pattern. -/
def jsIncludes (hay pat : List Char) : Bool :=
  hay.tails.any (fun t => pat.isPrefixOf t)

/-- String version of jsIncludes. -/
def strIncludes (hay pat : String) : Bool :=
  jsIncludes hay.data pat.data

/-! ### Content classifier (src/lib/contentDetector.ts)

Each regular expression of detectContentType is one of three shapes and is
translated to a constructor of Pat:
a plain escaped literal or an alternation of literals, searched anywhere
in the URL (alt); a literal alternation followed by a dot-star gap and a
second literal alternation (seqAlt); or a case-insensitive
extension-alternation anchored at the end of the URL (tailAlt). -/

inductive Pat where
  | alt (ss : List String)
  | seqAlt (starts gaps : List String)
  | tailAlt (exts : List String)

/-- Semantics of one translated regular expression against a URL, with the
unanchored-search semantics of RegExp.prototype.test. -/
def Pat.matches (p : Pat) (url : List Char) : Bool :=
  match p with
  | .alt ss => ss.any (fun s => jsIncludes url s.data)
  | .seqAlt starts gaps =>
      url.tails.any (fun t => starts.any (fun a =>
        a.data.isPrefixOf t &&
          gaps.any (fun b => jsIncludes (t.drop a.data.length) b.data)))
  | .tailAlt exts =>
      exts.any (fun e =>
        (("." ++ e).data).isSuffixOf (url.map lowerChar))

inductive ContentType where
  | video | product | article | tweet | note | image
  deriving DecidableEq, BEq

/-- Patterns of the video entry of the table in detectContentType. -/
def videoPats : List Pat :=
  [.alt ["youtube.com/watch"], .alt ["youtu.be/"], .alt ["vimeo.com/"],
   .alt ["dailymotion.com/"]]

/-- Patterns of the product entry of the table in detectContentType. -/
def productPats : List Pat :=
  [.seqAlt ["amazon.com/", "amazon.co.uk/", "amazon.de/", "amazon.fr/",
            "amazon.jp/", "amazon.ca/", "amazon.in/"]
           ["/dp/", "/gp/product/"],
   .alt ["ebay.com/itm/", "ebay.co.uk/itm/", "ebay.de/itm/",
         "ebay.fr/itm/", "ebay.ca/itm/"],
   .alt ["etsy.com/listing/"],
   .alt ["walmart.com/ip/"]]

/-- Patterns of the tweet entry of the table in detectContentType. -/
def tweetPats : List Pat :=
  [.seqAlt ["twitter.com/"] ["/status/"], .seqAlt ["x.com/"] ["/status/"]]

/-- Patterns of the image entry of the table in detectContentType. -/
def imagePats : List Pat :=
  [.tailAlt ["jpg", "jpeg", "png", "gif", "webp", "svg"]]

/-- The ordered pattern table of detectContentType, in the iteration
order of Object.entries: video, product, tweet, image. -/
def patternTable : List (ContentType × List Pat) :=
  [(.video, videoPats), (.product, productPats),
   (.tweet, tweetPats), (.image, imagePats)]

/-- Model of detectContentType: empty or all-whitespace URL maps to note,
otherwise the first table entry one of whose patterns matches wins, with
article as the default. -/
def detectContentType (url : String) : ContentType :=
  if url.data.all Char.isWhitespace then .note
  else
    match patternTable.find? (fun p => p.2.any (fun q => q.matches url.data)) with
    | some p => p.1
    | none => .article

/-- Content type assigned by the save route: a missing URL maps to note,
a present URL is classified by detectContentType, matching the
conditional url ? detectContentType(url) : note of POST /api/bookmarks
(an empty string is falsy there, and detectContentType would also map it
to note). -/
def routeContentType (url : Option String) : ContentType :=
  match url with
  | some u => if u = "" then .note else detectContentType u
  | none => .note

end Synapse
namespace Synapse

/-- C4: the content classifier is a total deterministic function of the
URL alone; a URL matching a video, product, tweet or image pattern is
classified by the first matching entry in the order video, product,
tweet, image; any other non-blank URL is classified article; an empty or
all-whitespace URL, and an absent URL at the save route, are classified
note. -/
theorem c4_content_classifier (url : String) :
    (routeContentType none = ContentType.note)
  ∧ (url.data.all Char.isWhitespace = true → detectContentType url = .note)
  ∧ (url.data.all Char.isWhitespace = false →
      (videoPats.any (fun q => q.matches url.data) = true →
        detectContentType url = .video)
    ∧ (videoPats.any (fun q => q.matches url.data) = false →
       productPats.any (fun q => q.matches url.data) = true →
        detectContentType url = .product)
    ∧ (videoPats.any (fun q => q.matches url.data) = false →
       productPats.any (fun q => q.matches url.data) = false →
       tweetPats.any (fun q => q.matches url.data) = true →
        detectContentType url = .tweet)
    ∧ (videoPats.any (fun q => q.matches url.data) = false →
       productPats.any (fun q => q.matches url.data) = false →
       tweetPats.any (fun q => q.matches url.data) = false →
       imagePats.any (fun q => q.matches url.data) = true →
        detectContentType url = .image)
    ∧ (videoPats.any (fun q => q.matches url.data) = false →
       productPats.any (fun q => q.matches url.data) = false →
       tweetPats.any (fun q => q.matches url.data) = false →
       imagePats.any (fun q => q.matches url.data) = false →
        detectContentType url = .article)) := by
  refine ⟨rfl, fun h => by simp [detectContentType, h], fun h => ?_⟩
  refine ⟨fun h1 => ?_, fun h1 h2 => ?_, fun h1 h2 h3 => ?_,
          fun h1 h2 h3 h4 => ?_, fun h1 h2 h3 h4 => ?_⟩
  · simp [detectContentType, patternTable, List.find?, h, h1]
  · simp [detectContentType, patternTable, List.find?, h, h1, h2]
  · simp [detectContentType, patternTable, List.find?, h, h1, h2, h3]
  · simp [detectContentType, patternTable, List.find?, h, h1, h2, h3, h4]
  · simp [detectContentType, patternTable, List.find?, h, h1, h2, h3, h4]

/-- C4 witness: concrete classifications exercising the video case and
the default article case of the classifier theorem. -/
theorem c4_witness :
    detectContentType "https://youtube.com/watch?v=abc" = .video ∧
    detectContentType "https://example.com/python-tutorial" = .article := by
  constructor
  · exact ((c4_content_classifier "https://youtube.com/watch?v=abc").2.2
      (by decide)).1 (by decide)
  · exact ((c4_content_classifier "https://example.com/python-tutorial").2.2
      (by decide)).2.2.2.2 (by decide) (by decide) (by decide) (by decide)

/-! ### Character-level facts about lowering -/

/-- Packing a valid codepoint and unpacking it is the identity. -/
theorem charToNatOfNat {n : Nat} (h : n.isValidChar) : (Char.ofNat n).toNat = n := by
  simp only [Char.ofNat, dif_pos h, Char.ofNatAux, Char.toNat]
  simp [UInt32.toNat]

/-- Lowering a character never yields an ASCII uppercase character. -/
theorem isUpperAscii_lowerChar (c : Char) : isUpperAscii (lowerChar c) = false := by
  by_cases h : isUpperAscii c = true
  · have hb : 65 ≤ c.toNat ∧ c.toNat ≤ 90 := by
      simpa [isUpperAscii] using h
    have hv : Nat.isValidChar (c.toNat + 32) := Or.inl (by omega)
    simp only [lowerChar, h, if_true]
    simp [isUpperAscii, charToNatOfNat hv]
    omega
  · have hh : isUpperAscii c = false := by simpa using h
    simp [lowerChar, hh]

/-! ### First-occurrence deduplication

The JavaScript expression spread-of-new-Set(list) keeps the first
occurrence of each element in insertion order; jsDedupAux mirrors the
incremental set construction, and jsDedup_cons restates it as a
head-plus-filtered-tail recursion convenient for proofs. -/

variable {β : Type} [DecidableEq β]

/-- Set construction over a list, skipping elements already seen. -/
def jsDedupAux (seen : List β) : List β → List β
  | [] => []
  | a :: l => if a ∈ seen then jsDedupAux seen l else a :: jsDedupAux (a :: seen) l

/-- Model of the JavaScript spread of a Set built from a list. -/
def jsDedup (l : List β) : List β := jsDedupAux [] l

/-- The seen accumulator matters only through membership. -/
theorem jsDedupAux_congr : ∀ (l seen₁ seen₂ : List β),
    (∀ y, y ∈ seen₁ ↔ y ∈ seen₂) → jsDedupAux seen₁ l = jsDedupAux seen₂ l := by
  intro l
  induction l with
  | nil => intro _ _ _; rfl
  | cons a l ih =>
    intro s₁ s₂ hiff
    by_cases ha : a ∈ s₁
    · rw [jsDedupAux, if_pos ha, jsDedupAux, if_pos ((hiff a).mp ha)]
      exact ih s₁ s₂ hiff
    · rw [jsDedupAux, if_neg ha, jsDedupAux, if_neg (fun h => ha ((hiff a).mpr h))]
      refine congrArg (a :: ·) (ih _ _ fun y => ?_)
      simp [hiff y]

/-- Growing the seen accumulator is the same as pre-filtering. -/
theorem jsDedupAux_cons_seen : ∀ (l seen : List β) (x : β),
    jsDedupAux (x :: seen) l = jsDedupAux seen (l.filter (fun b => b ≠ x)) := by
  intro l
  induction l with
  | nil => intro _ _; rfl
  | cons b l ih =>
    intro seen x
    by_cases hbx : b = x
    · subst hbx
      rw [jsDedupAux, if_pos (List.mem_cons_self _ _)]
      have hf : (b :: l).filter (fun c => c ≠ b) = l.filter (fun c => c ≠ b) := by simp
      rw [hf]
      exact ih seen b
    · have hfilter : (b :: l).filter (fun c => c ≠ x) = b :: l.filter (fun c => c ≠ x) := by
        simp [List.filter_cons, hbx]
      rw [hfilter]
      by_cases hbs : b ∈ seen
      · rw [jsDedupAux, if_pos (List.mem_cons_of_mem _ hbs), jsDedupAux, if_pos hbs]
        exact ih seen x
      · have hbxs : b ∉ x :: seen := by
          simp [hbx, hbs]
        rw [jsDedupAux, if_neg hbxs, jsDedupAux, if_neg hbs]
        refine congrArg (b :: ·) ?_
        calc jsDedupAux (b :: x :: seen) l
            = jsDedupAux (x :: b :: seen) l :=
              jsDedupAux_congr l _ _ (fun y => by constructor <;> (intro h; simp at h ⊢; tauto))
          _ = jsDedupAux (b :: seen) (l.filter (fun c => c ≠ x)) := ih (b :: seen) x

/-- Deduplication of the empty list. -/
theorem jsDedup_nil : jsDedup ([] : List β) = [] := rfl

/-- Head-and-filtered-tail unfolding of jsDedup. -/
theorem jsDedup_cons (a : β) (l : List β) :
    jsDedup (a :: l) = a :: jsDedup (l.filter (fun b => b ≠ a)) := by
  show jsDedupAux [] (a :: l) = _
  rw [jsDedupAux, if_neg (List.not_mem_nil a)]
  exact congrArg (a :: ·) (jsDedupAux_cons_seen l [] a)

/-- Deduplication introduces no new elements. -/
theorem mem_jsDedup {x : β} : ∀ {l : List β}, x ∈ jsDedup l → x ∈ l := by
  suffices H : ∀ (n : Nat) (l : List β), l.length = n → x ∈ jsDedup l → x ∈ l by
    intro l
    exact H l.length l rfl
  intro n
  induction n using Nat.strong_induction_on with
  | _ n ih =>
    intro l hn
    match l with
    | [] => intro h; simp [jsDedup_nil] at h
    | a :: l =>
      intro hx
      rw [jsDedup_cons] at hx
      rcases List.mem_cons.mp hx with h | h
      · exact h ▸ List.mem_cons_self a l
      · have hlen : (l.filter (fun b => b ≠ a)).length < n := by
          subst hn
          simp only [List.length_cons]
          exact Nat.lt_succ_of_le (List.length_filter_le _ _)
        exact List.mem_cons_of_mem a
          (List.mem_of_mem_filter (ih _ hlen _ rfl h))

/-- Deduplication produces a duplicate-free list. -/
theorem nodup_jsDedup : ∀ (l : List β), (jsDedup l).Nodup := by
  suffices H : ∀ (n : Nat) (l : List β), l.length = n → (jsDedup l).Nodup by
    intro l
    exact H l.length l rfl
  intro n
  induction n using Nat.strong_induction_on with
  | _ n ih =>
    intro l hn
    match l with
    | [] => simp [jsDedup_nil]
    | a :: l =>
      rw [jsDedup_cons]
      refine List.nodup_cons.mpr ⟨fun hmem => ?_, ?_⟩
      · have := mem_jsDedup hmem
        simp [List.mem_filter] at this
      · have hlen : (l.filter (fun b => b ≠ a)).length < n := by
          subst hn
          simp only [List.length_cons]
          exact Nat.lt_succ_of_le (List.length_filter_le _ _)
        exact ih _ hlen _ rfl

/-- Filtering commutes with deduplication. -/
theorem filter_jsDedup (p : β → Bool) : ∀ (l : List β),
    (jsDedup l).filter p = jsDedup (l.filter p) := by
  suffices H : ∀ (n : Nat) (l : List β), l.length = n →
      (jsDedup l).filter p = jsDedup (l.filter p) by
    intro l
    exact H l.length l rfl
  intro n
  induction n using Nat.strong_induction_on with
  | _ n ih =>
    intro l hn
    match l with
    | [] => simp [jsDedup_nil]
    | a :: l =>
      have hlen : (l.filter (fun b => b ≠ a)).length < n := by
        subst hn
        simp only [List.length_cons]
        exact Nat.lt_succ_of_le (List.length_filter_le _ _)
      rw [jsDedup_cons, List.filter_cons]
      by_cases hpa : p a = true
      · rw [if_pos hpa, List.filter_cons, if_pos hpa, jsDedup_cons]
        refine congrArg (a :: ·) ?_
        rw [ih _ hlen _ rfl]
        refine congrArg jsDedup ?_
        rw [List.filter_filter, List.filter_filter]
        exact List.filter_congr fun x _ => by rw [Bool.and_comm]
      · have hpa' : p a = false := by simpa using hpa
        rw [if_neg (by simp [hpa']), List.filter_cons, if_neg (by simp [hpa'])]
        rw [ih _ hlen _ rfl]
        refine congrArg jsDedup ?_
        rw [List.filter_filter]
        calc (l.filter fun x => p x && decide (x ≠ a)) =
            (l.filter fun x => decide (x ≠ a) && p x) :=
              List.filter_congr fun x _ => by rw [Bool.and_comm]
          _ = (l.filter p).filter (fun x => x ≠ a) := (List.filter_filter _ _).symm
          _ = l.filter p := by
              refine List.filter_eq_self.mpr fun x hx => ?_
              have hpx := List.of_mem_filter hx
              have hxa : x ≠ a := fun hxa => by
                rw [hxa] at hpx
                rw [hpa'] at hpx
                exact Bool.false_ne_true hpx
              simpa using hxa

/-- Deduplication is idempotent. -/
theorem jsDedup_idem : ∀ (l : List β), jsDedup (jsDedup l) = jsDedup l := by
  suffices H : ∀ (n : Nat) (l : List β), l.length = n →
      jsDedup (jsDedup l) = jsDedup l by
    intro l
    exact H l.length l rfl
  intro n
  induction n using Nat.strong_induction_on with
  | _ n ih =>
    intro l hn
    match l with
    | [] => simp [jsDedup_nil]
    | a :: l =>
      have hlen : (l.filter (fun b => b ≠ a)).length < n := by
        subst hn
        simp only [List.length_cons]
        exact Nat.lt_succ_of_le (List.length_filter_le _ _)
      rw [jsDedup_cons, jsDedup_cons]
      refine congrArg (a :: ·) ?_
      rw [filter_jsDedup, List.filter_filter]
      have hff : (l.filter fun x => decide (x ≠ a) && decide (x ≠ a)) =
          l.filter (fun b => b ≠ a) :=
        List.filter_congr fun x _ => Bool.and_self _
      rw [hff, ih _ hlen _ rfl]

/-- Deduplicating the right half first does not change the result. -/
theorem jsDedup_append_jsDedup : ∀ (A B : List β),
    jsDedup (A ++ jsDedup B) = jsDedup (A ++ B) := by
  suffices H : ∀ (n : Nat) (A : List β), A.length = n → ∀ (B : List β),
      jsDedup (A ++ jsDedup B) = jsDedup (A ++ B) by
    intro A B
    exact H A.length A rfl B
  intro n
  induction n using Nat.strong_induction_on with
  | _ n ih =>
    intro A hn B
    match A with
    | [] => simpa using jsDedup_idem B
    | a :: A =>
      have hlen : (A.filter (fun b => b ≠ a)).length < n := by
        subst hn
        simp only [List.length_cons]
        exact Nat.lt_succ_of_le (List.length_filter_le _ _)
      rw [List.cons_append, List.cons_append, jsDedup_cons, jsDedup_cons]
      refine congrArg (a :: ·) ?_
      rw [List.filter_append, List.filter_append, filter_jsDedup,
        ih _ hlen _ rfl]

/-- A duplicated left half collapses under deduplication. -/
theorem jsDedup_append_self : ∀ (A B : List β),
    jsDedup (A ++ (A ++ B)) = jsDedup (A ++ B) := by
  suffices H : ∀ (n : Nat) (A : List β), A.length = n → ∀ (B : List β),
      jsDedup (A ++ (A ++ B)) = jsDedup (A ++ B) by
    intro A B
    exact H A.length A rfl B
  intro n
  induction n using Nat.strong_induction_on with
  | _ n ih =>
    intro A hn B
    match A with
    | [] => simp
    | a :: A =>
      have hlen : (A.filter (fun b => b ≠ a)).length < n := by
        subst hn
        simp only [List.length_cons]
        exact Nat.lt_succ_of_le (List.length_filter_le _ _)
      rw [List.cons_append, List.cons_append, jsDedup_cons, jsDedup_cons]
      refine congrArg (a :: ·) ?_
      rw [List.filter_append, List.filter_append, List.filter_cons]
      have haa : (decide (a ≠ a)) = false := by simp
      rw [haa]
      simp only [Bool.false_eq_true, if_false]
      have := ih _ hlen (A.filter (fun b => b ≠ a)) rfl
        (B.filter (fun b => b ≠ a))
      simpa using this

/-- Tag merge of POST /api/bookmarks: spread of a Set holding the AI tags
followed by the user tags, capped at 8 entries. -/
def mergeTags (aiTags userTags : List String) : List String :=
  (jsDedup (aiTags ++ userTags)).take 8

/-- C8: merging an AI tag list into a set that is already the merge of
that list with some user tags, and whose size is below the cap of 8,
returns the set unchanged. -/
theorem c8_merge_idempotent (S U M : List String)
    (hM : M = mergeTags S U) (hlt : M.length < 8) :
    mergeTags S M = M := by
  have hXlen : (jsDedup (S ++ U)).length < 8 := by
    rw [hM, mergeTags, List.length_take] at hlt
    omega
  have hM2 : M = jsDedup (S ++ U) := by
    rw [hM, mergeTags, List.take_of_length_le (Nat.le_of_lt hXlen)]
  rw [mergeTags, hM2, jsDedup_append_jsDedup, jsDedup_append_self]
  rw [List.take_of_length_le (Nat.le_of_lt hXlen)]

/-- C8 witness: re-merging a concrete below-cap merged set is a no-op. -/
theorem c8_witness :
    mergeTags ["ai"] (mergeTags ["ai"] ["Web"]) = mergeTags ["ai"] ["Web"] :=
  c8_merge_idempotent ["ai"] ["Web"] (mergeTags ["ai"] ["Web"]) rfl (by decide)

end Synapse
namespace Synapse

/-! ### Tag generation and content analysis (src/lib/ai.ts)

The Anthropic call together with the JSON extraction from its response is
an oracle of type Except Unit; the error case covers a thrown call as
well as a response with no JSON block, both of which the source maps to
the same fallback. -/

/-- Tag cleaning inside generateSmartTags: drop empty entries, lowercase
and trim each entry, keep lengths within [2,30], cap at 5. -/
def cleanTags (raw : List String) : List String :=
  ((((raw.filter (fun t => t ≠ "")).map
      (fun t => strTrim (strLower t))).filter
      (fun t => 2 ≤ t.length && t.length ≤ 30)).take 5)

/-- Model of generateSmartTags: a successfully parsed array is cleaned,
any failure yields the empty list (the function never throws). -/
def generateSmartTags (outcome : Except Unit (List String)) : List String :=
  match outcome with
  | .ok raw => cleanTags raw
  | .error _ => []

/-- Parsed result of analyzeContentWithAI after its per-field defaulting. -/
structure AIAnalysisResult where
  summary : String
  suggestedTags : List String
  keyPoints : List String
  deriving DecidableEq

/-- Model of analyzeContentWithAI: any failure yields the empty result
(the function never throws). -/
def analyzeContentWithAI (outcome : Except Unit AIAnalysisResult) : AIAnalysisResult :=
  match outcome with
  | .ok r => r
  | .error _ => { summary := "", suggestedTags := [], keyPoints := [] }

/-! ### Category detection (detectCategory in src/app/api/bookmarks/route.ts) -/

inductive Category where
  | work | personal | research | inspiration | shopping | entertainment | learning
  deriving DecidableEq, BEq

/-- Model of detectCategory: the ordered rule chain over the content type
and the lowercased tags, with personal as the default. The return type
never being null reflects the final unconditional return. -/
def detectCategory (contentType : ContentType) (tags : List String) : Category :=
  let tagLower := tags.map strLower
  if contentType == ContentType.product ||
      tagLower.any (fun t => ["shop", "buy", "product", "shopping"].contains t) then
    .shopping
  else if contentType == ContentType.video ||
      tagLower.any (fun t => ["entertainment", "movie", "music", "game"].contains t) then
    .entertainment
  else if tagLower.any (fun t => ["work", "business", "productivity", "career"].contains t) then
    .work
  else if tagLower.any (fun t => ["learn", "education", "tutorial", "course", "study"].contains t) then
    .learning
  else if tagLower.any (fun t => ["research", "academic", "paper", "science"].contains t) then
    .research
  else if tagLower.any (fun t => ["design", "art", "creative", "inspiration"].contains t) then
    .inspiration
  else
    .personal

/-! ### The save pipeline (POST in src/app/api/bookmarks/route.ts) -/

/-- Body of a save request before validation. -/
structure RawRequest where
  title : String
  url : Option String
  rawContent : Option String
  tags : List String
  category : Option Category

/-- Body of a save request after createBookmarkSchema validation. -/
structure SaveRequest where
  title : String
  url : Option String
  rawContent : Option String
  tags : List String
  category : Option Category
  deriving DecidableEq

/-- Model of createBookmarkSchema: title length in [1,500]; a missing or
empty URL becomes null; a present URL must pass the URL-constructor
check, abstracted as the urlValid predicate; tags default to []. -/
def validateRequest (urlValid : String → Bool) (r : RawRequest) :
    Except String SaveRequest :=
  if r.title.length = 0 then .error "Title is required"
  else if 500 < r.title.length then .error "Title too long"
  else
    match r.url with
    | none => .ok ⟨r.title, none, r.rawContent, r.tags, r.category⟩
    | some u =>
        if u = "" then .ok ⟨r.title, none, r.rawContent, r.tags, r.category⟩
        else if urlValid u then .ok ⟨r.title, some u, r.rawContent, r.tags, r.category⟩
        else .error "Invalid URL format"

/-- Result of scraperManager.scrape as consumed by the route. -/
structure ScrapedData where
  title : String
  description : Option String
  thumbnail : Option String
  deriving DecidableEq

/-- Outcomes of the external calls made during one save: the scrape, the
presence of the Anthropic key, the two Anthropic calls, and the whole
background embedding task (generation plus vector update). -/
structure Oracles where
  scrape : Except Unit ScrapedData
  aiConfigured : Bool
  smartTagsRaw : Except Unit (List String)
  analysisRaw : Except Unit AIAnalysisResult
  embedRaw : Except Unit (List ℚ)

/-- The bookmark record as persisted, after the background embedding task
has settled; aiSummary and keyPoints stand for the metadata keys of the
same names. -/
structure Bookmark where
  title : String
  url : Option String
  contentType : ContentType
  rawContent : Option String
  tags : List String
  category : Option Category
  aiSummary : Option String
  keyPoints : Option (List String)
  embedding : Option (List ℚ)
  deriving DecidableEq

/-- JavaScript a-or-b on an optional string, where empty is falsy. -/
def jsOrStr (a : Option String) (b : String) : String :=
  match a with
  | some s => if s = "" then b else s
  | none => b

/-- JavaScript s-or-null on an optional string, where empty is falsy. -/
def truthyStr (a : Option String) : Option String :=
  match a with
  | some s => if s = "" then none else some s
  | none => none

/-- Scrape step of the route: attempted only for a truthy URL; a caught
scrape failure leaves the request data in place. -/
def scrapedOf (req : SaveRequest) (o : Oracles) : Option ScrapedData :=
  match req.url with
  | some u =>
      if u = "" then none
      else
        match o.scrape with
        | .ok d => some d
        | .error _ => none
  | none => none

/-- Title after the scrape step: scrapedData.title or the caller title. -/
def extractedTitleOf (req : SaveRequest) (o : Oracles) : String :=
  match scrapedOf req o with
  | some d => if d.title = "" then req.title else d.title
  | none => req.title

/-- Description after the scrape step. -/
def descriptionOf (req : SaveRequest) (o : Oracles) : Option String :=
  match scrapedOf req o with
  | some d => d.description
  | none => none

/-- Text submitted to the AI steps: rawContent, else the scraped
description, else the title. -/
def contentToAnalyzeOf (req : SaveRequest) (o : Oracles) : String :=
  jsOrStr req.rawContent (jsOrStr (descriptionOf req o) req.title)

/-- Tags after the smart-tag step: with the Anthropic key present and a
nonempty analysis text, AI tags are merged with nonempty user tags under
the cap of 8, or used alone under the cap of 5; otherwise the user tags
pass through. -/
def tagsAfterSmartTags (req : SaveRequest) (o : Oracles) : List String :=
  if o.aiConfigured then
    if contentToAnalyzeOf req o ≠ "" then
      if req.tags ≠ [] then mergeTags (generateSmartTags o.smartTagsRaw) req.tags
      else (generateSmartTags o.smartTagsRaw).take 5
    else req.tags
  else req.tags

/-- Whether the content-analysis step runs: key present and more than 100
characters of analysis text. -/
def analysisRan (req : SaveRequest) (o : Oracles) : Bool :=
  o.aiConfigured && decide (100 < (contentToAnalyzeOf req o).length)

/-- Tags after the optional content-analysis step: nonempty suggested
tags are merged in under the cap of 8. -/
def tagsFinalOf (req : SaveRequest) (o : Oracles) : List String :=
  let t1 := tagsAfterSmartTags req o
  if analysisRan req o then
    if (analyzeContentWithAI o.analysisRaw).suggestedTags ≠ [] then
      mergeTags t1 (analyzeContentWithAI o.analysisRaw).suggestedTags
    else t1
  else t1

/-- Metadata aiSummary key: set only by a successful analysis with a
nonempty summary. -/
def aiSummaryOf (req : SaveRequest) (o : Oracles) : Option String :=
  if analysisRan req o then
    if (analyzeContentWithAI o.analysisRaw).summary ≠ "" then
      some (analyzeContentWithAI o.analysisRaw).summary
    else none
  else none

/-- Metadata keyPoints key: set only by a successful analysis with a
nonempty key-point list. -/
def keyPointsOf (req : SaveRequest) (o : Oracles) : Option (List String) :=
  if analysisRan req o then
    if (analyzeContentWithAI o.analysisRaw).keyPoints ≠ [] then
      some (analyzeContentWithAI o.analysisRaw).keyPoints
    else none
  else none

/-- Embedding field after the detached background task: a failed task or
an empty generated vector leaves the field null. -/
def embeddingStored (o : Oracles) : Option (List ℚ) :=
  match o.embedRaw with
  | .ok v => if v = [] then none else some v
  | .error _ => none

/-- Record written by prisma.bookmark.create, with the embedding field as
settled by the background task. -/
def enrichAndSave (req : SaveRequest) (o : Oracles) : Bookmark :=
  { title := extractedTitleOf req o
    url := truthyStr req.url
    contentType := routeContentType req.url
    rawContent :=
      match truthyStr req.rawContent with
      | some s => some s
      | none => truthyStr (descriptionOf req o)
    tags := tagsFinalOf req o
    category := some
      (match req.category with
       | some c => c
       | none => detectCategory (routeContentType req.url) (tagsFinalOf req o))
    aiSummary := aiSummaryOf req o
    keyPoints := keyPointsOf req o
    embedding := embeddingStored o }

/-- Model of POST /api/bookmarks for an authenticated caller: only a
validation failure is an error response; every validated request produces
a created bookmark. -/
def postBookmark (urlValid : String → Bool) (raw : RawRequest) (o : Oracles) :
    Except String Bookmark :=
  match validateRequest urlValid raw with
  | .error e => .error e
  | .ok req => .ok (enrichAndSave req o)

end Synapse
namespace Synapse

/-- C1: every save request that passes validation produces a created
bookmark response, whatever the outcomes of the scrape, AI and embedding
steps; a failed tag step together with a failed analysis step leaves only
caller-supplied tags, a failed analysis step leaves no summary and no
key points, and a failed embedding task leaves the embedding absent. -/
theorem c1_enrichment_never_fails (urlValid : String → Bool) (raw : RawRequest)
    (o : Oracles) (req : SaveRequest)
    (hval : validateRequest urlValid raw = .ok req) :
    postBookmark urlValid raw o = .ok (enrichAndSave req o) ∧
    (o.smartTagsRaw = .error () → o.analysisRaw = .error () →
      ∀ t ∈ (enrichAndSave req o).tags, t ∈ req.tags) ∧
    (o.analysisRaw = .error () →
      (enrichAndSave req o).aiSummary = none ∧ (enrichAndSave req o).keyPoints = none) ∧
    (o.embedRaw = .error () → (enrichAndSave req o).embedding = none) := by
  refine ⟨by simp [postBookmark, hval], ?_, ?_, ?_⟩
  · intro hst han t ht
    have hanr : analyzeContentWithAI o.analysisRaw = ⟨"", [], []⟩ := by
      rw [han]; rfl
    have hsm : generateSmartTags o.smartTagsRaw = [] := by
      rw [hst]; rfl
    have htags : (enrichAndSave req o).tags = tagsFinalOf req o := rfl
    rw [htags, tagsFinalOf] at ht
    simp only [hanr, ne_eq, not_true_eq_false, ite_self] at ht
    have ht1 : t ∈ tagsAfterSmartTags req o := by
      by_cases hr : analysisRan req o = true
      · simpa [hr] using ht
      · have hr' : analysisRan req o = false := by simpa using hr
        simpa [hr'] using ht
    rw [tagsAfterSmartTags, hsm] at ht1
    by_cases hai : o.aiConfigured = true
    · rw [if_pos hai] at ht1
      by_cases hc : contentToAnalyzeOf req o ≠ ""
      · rw [if_pos hc] at ht1
        by_cases hu : req.tags ≠ []
        · rw [if_pos hu] at ht1
          rw [mergeTags, List.nil_append] at ht1
          exact mem_jsDedup (List.take_subset _ _ ht1)
        · rw [if_neg hu] at ht1
          simp at ht1
      · rw [if_neg hc] at ht1
        exact ht1
    · have hai' : o.aiConfigured = false := by simpa using hai
      rw [hai'] at ht1
      simpa using ht1
  · intro han
    have hanr : analyzeContentWithAI o.analysisRaw = ⟨"", [], []⟩ := by
      rw [han]; rfl
    constructor
    · show aiSummaryOf req o = none
      rw [aiSummaryOf]
      simp [hanr]
    · show keyPointsOf req o = none
      rw [keyPointsOf]
      simp [hanr]
  · intro he
    show embeddingStored o = none
    rw [embeddingStored, he]

/-- C1 witness: the save of Intro to Python with every external step
failing still returns a created record, with caller-only tags, no
summary and no embedding. -/
theorem c1_witness :
    postBookmark (fun _ => true)
      ⟨"Intro to Python", some "https://example.com/python-tutorial", none, [], none⟩
      ⟨.error (), true, .error (), .error (), .error ()⟩ =
      .ok { title := "Intro to Python", url := some "https://example.com/python-tutorial",
            contentType := .article, rawContent := none, tags := [],
            category := some .personal, aiSummary := none, keyPoints := none,
            embedding := none } := by
  have h := c1_enrichment_never_fails (fun _ => true)
    ⟨"Intro to Python", some "https://example.com/python-tutorial", none, [], none⟩
    ⟨.error (), true, .error (), .error (), .error ()⟩
    ⟨"Intro to Python", some "https://example.com/python-tutorial", none, [], none⟩
    rfl
  rw [h.1]
  exact congrArg Except.ok (by decide)

end Synapse
namespace Synapse

/-- Trimming introduces no new characters. -/
theorem mem_trimChars {c : Char} {l : List Char} (h : c ∈ trimChars l) : c ∈ l := by
  rw [trimChars] at h
  rw [List.mem_reverse] at h
  have h2 := List.dropWhile_subset _ h
  rw [List.mem_reverse] at h2
  exact List.dropWhile_subset _ h2

/-- The JavaScript or-chain is nonempty when its last resort is. -/
theorem jsOrStr_ne_empty (a : Option String) (b : String) (hb : b ≠ "") :
    jsOrStr a b ≠ "" := by
  match a with
  | none => simpa [jsOrStr] using hb
  | some s =>
    by_cases hs : s = ""
    · simpa [jsOrStr, hs] using hb
    · simp [jsOrStr, hs]

/-- With a nonempty title the analysis text is never empty. -/
theorem contentToAnalyze_ne_empty (req : SaveRequest) (o : Oracles)
    (ht : req.title ≠ "") : contentToAnalyzeOf req o ≠ "" :=
  jsOrStr_ne_empty _ _ (jsOrStr_ne_empty _ _ ht)

/-- C2 as amended: tags produced by generateSmartTags are free of ASCII
uppercase, have lengths within [2,30] and number at most 5; every merged
set is exact-string deduplicated and capped at 8; and with the Anthropic
key present and a nonempty title the stored tag set has at most 8
entries. Lowercasing, the length bounds and deduplication are not
enforced on user-supplied or content-analysis tags (see the
counterexample). -/
theorem c2_tag_invariants :
    (∀ (raw : Except Unit (List String)),
      (∀ t ∈ generateSmartTags raw,
        t.data.all (fun c => !isUpperAscii c) = true ∧ 2 ≤ t.length ∧ t.length ≤ 30) ∧
      (generateSmartTags raw).length ≤ 5) ∧
    (∀ S U : List String, (mergeTags S U).Nodup ∧ (mergeTags S U).length ≤ 8) ∧
    (∀ (req : SaveRequest) (o : Oracles), o.aiConfigured = true → req.title ≠ "" →
      (tagsFinalOf req o).length ≤ 8) := by
  refine ⟨fun raw => ⟨fun t ht => ?_, ?_⟩, fun S U => ⟨?_, ?_⟩, fun req o hai htit => ?_⟩
  · match raw with
    | .error _ => simp [generateSmartTags] at ht
    | .ok raw =>
      rw [generateSmartTags, cleanTags] at ht
      have ht2 := List.take_subset _ _ ht
      have hlen := List.of_mem_filter ht2
      have ht3 := List.mem_of_mem_filter ht2
      rw [List.mem_map] at ht3
      obtain ⟨s, _, hst⟩ := ht3
      refine ⟨?_, ?_, ?_⟩
      · rw [List.all_eq_true]
        intro c hc
        have hc2 : c ∈ (strTrim (strLower s)).data := hst ▸ hc
        have hc3 : c ∈ (strLower s).data := mem_trimChars hc2
        rw [strLower] at hc3
        simp only [List.mem_map] at hc3
        obtain ⟨c0, _, hc0⟩ := hc3
        rw [← hc0]
        simp [isUpperAscii_lowerChar]
      · have := (Bool.and_eq_true _ _).mp hlen
        exact Nat.le_of_ble_eq_true (by simpa using this.1)
      · have := (Bool.and_eq_true _ _).mp hlen
        exact Nat.le_of_ble_eq_true (by simpa using this.2)
  · match raw with
    | .error _ => simp [generateSmartTags]
    | .ok raw =>
      rw [generateSmartTags, cleanTags]
      exact List.length_take_le _ _
  · exact List.Sublist.nodup (List.take_sublist _ _) (nodup_jsDedup _)
  · exact List.length_take_le _ _
  · rw [tagsFinalOf]
    have hcne := contentToAnalyze_ne_empty req o htit
    have ht1 : (tagsAfterSmartTags req o).length ≤ 8 := by
      rw [tagsAfterSmartTags, if_pos hai, if_pos hcne]
      by_cases hu : req.tags ≠ []
      · rw [if_pos hu]
        exact List.length_take_le _ _
      · rw [if_neg hu]
        calc ((generateSmartTags o.smartTagsRaw).take 5).length ≤ 5 :=
            List.length_take_le _ _
          _ ≤ 8 := by omega
    by_cases hr : analysisRan req o = true
    · rw [if_pos hr]
      by_cases hsug : (analyzeContentWithAI o.analysisRaw).suggestedTags ≠ []
      · rw [if_pos hsug]
        exact List.length_take_le _ _
      · rw [if_neg hsug]
        exact ht1
    · rw [if_neg hr]
      exact ht1

/-- C2 counterexample: a stored tag set obtained by merging a cleaned
AI tag with the caller tag AI keeps the uppercase caller entry, so the
claimed all-entries-lowercase invariant fails on the stored set. -/
theorem c2_counterexample :
    ¬ (∀ t ∈ (enrichAndSave ⟨"T", none, none, ["AI"], none⟩
        ⟨.error (), true, .ok ["ml"], .error (), .error ()⟩).tags,
        t.data.all (fun c => !isUpperAscii c) = true) := by decide

/-- C2 witness: the amended invariants evaluated on concrete tag lists
and a concrete save. -/
theorem c2_witness :
    (∀ t ∈ generateSmartTags (.ok ["  Machine Learning ", "x", "ok", "ai"]),
      t.data.all (fun c => !isUpperAscii c) = true ∧ 2 ≤ t.length ∧ t.length ≤ 30) ∧
    (mergeTags ["ai"] ["Web", "ai"]).Nodup ∧
    (tagsFinalOf ⟨"T", none, none, ["Web"], none⟩
      ⟨.error (), true, .ok ["ai"], .error (), .error ()⟩).length ≤ 8 := by
  refine ⟨(c2_tag_invariants.1 _).1, (c2_tag_invariants.2.1 _ _).1, ?_⟩
  exact c2_tag_invariants.2.2 _ _ rfl (by decide)

end Synapse
namespace Synapse

/-- C9: every bookmark created by the save pipeline carries a non-null
category label of the fixed Category type, and detectCategory returns
personal whenever none of its six rules matches. -/
theorem c9_category_always_set (req : SaveRequest) (o : Oracles)
    (ct : ContentType) (tags : List String)
    (h1 : (ct == ContentType.product ||
      (tags.map strLower).any
        (fun t => ["shop", "buy", "product", "shopping"].contains t)) = false)
    (h2 : (ct == ContentType.video ||
      (tags.map strLower).any
        (fun t => ["entertainment", "movie", "music", "game"].contains t)) = false)
    (h3 : ((tags.map strLower).any
      (fun t => ["work", "business", "productivity", "career"].contains t)) = false)
    (h4 : ((tags.map strLower).any
      (fun t => ["learn", "education", "tutorial", "course", "study"].contains t)) = false)
    (h5 : ((tags.map strLower).any
      (fun t => ["research", "academic", "paper", "science"].contains t)) = false)
    (h6 : ((tags.map strLower).any
      (fun t => ["design", "art", "creative", "inspiration"].contains t)) = false) :
    (∃ c, (enrichAndSave req o).category = some c) ∧
    detectCategory ct tags = .personal := by
  refine ⟨⟨_, rfl⟩, ?_⟩
  simp only [detectCategory, h1, h2, h3, h4, h5, h6, Bool.false_eq_true, if_false]

/-- C9 witness: a concrete save stores a category, and a tag list
matching no rule falls through to personal. -/
theorem c9_witness :
    (∃ c, (enrichAndSave ⟨"T", none, none, [], none⟩
      ⟨.error (), false, .error (), .error (), .error ()⟩).category = some c) ∧
    detectCategory .article ["misc"] = .personal :=
  c9_category_always_set _ _ .article ["misc"]
    (by decide) (by decide) (by decide) (by decide) (by decide) (by decide)

/-- C10: when a URL is present and the scrape succeeds, the persisted
title is the scraped title if that is nonempty, else the caller title;
and for a nonempty caller title the persisted title is nonempty under
every oracle outcome. -/
theorem c10_title_precedence (req : SaveRequest) (o : Oracles)
    (u : String) (d : ScrapedData)
    (hu : req.url = some u) (hne : u ≠ "") (hs : o.scrape = .ok d) :
    (enrichAndSave req o).title = (if d.title = "" then req.title else d.title) ∧
    (req.title ≠ "" → ∀ (o2 : Oracles), (enrichAndSave req o2).title ≠ "") := by
  constructor
  · show extractedTitleOf req o = _
    have hsc : scrapedOf req o = some d := by
      simp [scrapedOf, hu, hne, hs]
    simp [extractedTitleOf, hsc]
  · intro htit o2
    show extractedTitleOf req o2 ≠ ""
    match hsc : scrapedOf req o2 with
    | some d2 =>
      by_cases hd : d2.title = ""
      · simp [extractedTitleOf, hsc, hd, htit]
      · simp [extractedTitleOf, hsc, hd]
    | none => simp [extractedTitleOf, hsc, htit]

/-- C10 witness: a concrete save in which the scraped title silently
replaces the caller title. -/
theorem c10_witness :
    (enrichAndSave ⟨"My Title", some "https://example.com/a", none, [], none⟩
      ⟨.ok ⟨"Scraped Title", none, none⟩, false, .error (), .error (), .error ()⟩).title
      = "Scraped Title" := by
  have h := (c10_title_precedence
    ⟨"My Title", some "https://example.com/a", none, [], none⟩
    ⟨.ok ⟨"Scraped Title", none, none⟩, false, .error (), .error (), .error ()⟩
    "https://example.com/a" ⟨"Scraped Title", none, none⟩ rfl (by decide) rfl).1
  simpa using h

end Synapse
namespace Synapse

/-! ### Keyword clause of the retrieval query
(src/app/api/bookmarks/smart-search/route.ts)

The route joins parsedQuery.keywords into one alternation pattern and
appends, when the keyword list is nonempty, a conjunct testing the
pattern case-insensitively against the title, the raw content and each
tag. A field matches the alternation exactly when it matches one of the
keywords, keywords being literal words here, which is how the clause is
embedded. A null raw content matches nothing, as SQL null propagation
makes that disjunct non-true. -/

/-- Candidate row of the smart-search query, restricted to the fields the
keyword clause reads. -/
structure BookmarkRow where
  title : String
  rawContent : Option String
  tags : List String
  url : Option String
  deriving DecidableEq

/-- Case-insensitive containment of one literal keyword in a field. -/
def matchesCI (k field : String) : Bool :=
  jsIncludes (field.data.map lowerChar) (k.data.map lowerChar)

/-- Keyword conjunct the route appends: present only for a nonempty
keyword list, an OR of the three field tests. -/
def keywordClause (keywords : List String) : Option (BookmarkRow → Bool) :=
  if keywords = [] then none
  else some (fun row =>
    keywords.any (fun k => matchesCI k row.title) ||
    (match row.rawContent with
     | some c => keywords.any (fun k => matchesCI k c)
     | none => false) ||
    row.tags.any (fun tg => keywords.any (fun k => matchesCI k tg)))

/-- Keyword predicate as the specification sentence states it, for
comparison with the clause built by the code: an OR across
expandedKeywords, matching the title, the raw content, the tags or the
url. -/
def keywordPredicateSpec (expandedKeywords : List String) (row : BookmarkRow) : Bool :=
  expandedKeywords.any (fun k =>
    matchesCI k row.title ||
    (match row.rawContent with
     | some c => matchesCI k c
     | none => false) ||
    row.tags.any (fun tg => matchesCI k tg) ||
    (match row.url with
     | some u => matchesCI k u
     | none => false))

/-! ### Cosine similarity (src/lib/embeddings.ts) -/

/-- Model of cosineSimilarity: a length mismatch throws, otherwise one
loop accumulates the dot product and both squared norms and the quotient
is returned. Real arithmetic stands in for floating point; the JavaScript
0/0 (NaN) of two empty vectors is the Lean division by zero. -/
noncomputable def cosineSimilarity (a b : List ℝ) : Except String ℝ :=
  if a.length ≠ b.length then .error "Vectors must have same length"
  else
    .ok (((a.zip b).foldl (fun s p => s + p.1 * p.2) 0) /
      (Real.sqrt (a.foldl (fun s x => s + x * x) 0) *
       Real.sqrt (b.foldl (fun s x => s + x * x) 0)))

/-! ### Fallback date ranges of the query parser (src/lib/smartSearch.ts) -/

structure SimpleDate where
  year : Nat
  month : Nat
  day : Nat
  deriving DecidableEq

def isLeapYear (y : Nat) : Bool :=
  (y % 4 = 0 && y % 100 ≠ 0) || y % 400 = 0

def daysInMonth (y m : Nat) : Nat :=
  if m = 2 then (if isLeapYear y then 29 else 28)
  else if m = 4 ∨ m = 6 ∨ m = 9 ∨ m = 11 then 30
  else 31

/-- One day earlier, the effect of setDate(getDate() - 1). -/
def prevDay (d : SimpleDate) : SimpleDate :=
  if 1 < d.day then ⟨d.year, d.month, d.day - 1⟩
  else if 1 < d.month then ⟨d.year, d.month - 1, daysInMonth d.year (d.month - 1)⟩
  else ⟨d.year - 1, 12, 31⟩

def subDays (d : SimpleDate) : Nat → SimpleDate
  | 0 => d
  | n + 1 => subDays (prevDay d) n

/-- One month earlier keeping the day, the effect of
setMonth(getMonth() - 1) in the cases arising here. -/
def subMonth (d : SimpleDate) : SimpleDate :=
  if 1 < d.month then ⟨d.year, d.month - 1, d.day⟩
  else ⟨d.year - 1, 12, d.day⟩

/-- The value the fallback parser uses as now: the source constructs
new Date of the string literal 2025-11-08 instead of reading the clock,
so the model is a constant and the parser takes no time input. -/
def basicParseNow : SimpleDate := ⟨2025, 11, 8⟩

structure DateRange where
  startDate : SimpleDate
  endDate : SimpleDate
  description : String
  deriving DecidableEq

/-- Date-range branch of basicQueryParse: the first matching phrase of
yesterday, last week, last month wins, bounds computed from the constant
basicParseNow. -/
def basicDateRange (query : String) : Option DateRange :=
  let lq := strLower query
  if strIncludes lq "yesterday" then
    some ⟨subDays basicParseNow 1, subDays basicParseNow 1, "yesterday"⟩
  else if strIncludes lq "last week" then
    some ⟨subDays basicParseNow 7, basicParseNow, "last week"⟩
  else if strIncludes lq "last month" then
    some ⟨subMonth basicParseNow, basicParseNow, "last month"⟩
  else none

/-! ### Provider selection of generateEmbedding (src/lib/embeddings.ts) -/

/-- Which provider keys are configured. -/
structure EmbedConfig where
  geminiKey : Bool
  openaiKey : Bool

/-- Outcomes of the two provider calls; the Gemini error case also covers
the internal empty-embedding throw. -/
structure EmbedOracles where
  gemini : Except Unit (List ℚ)
  openai : Except Unit (List ℚ)

/-- Run of whitespace collapsing, the effect of replacing each maximal
whitespace run with one space. -/
def collapseWsAux (prevWs : Bool) : List Char → List Char
  | [] => []
  | c :: cs =>
      if c.isWhitespace then
        if prevWs then collapseWsAux true cs
        else ' ' :: collapseWsAux true cs
      else c :: collapseWsAux false cs

def collapseWs (l : List Char) : List Char := collapseWsAux false l

/-- Text preprocessing of generateEmbedding: collapse whitespace, trim,
truncate to 8000 characters. -/
def cleanEmbedText (text : String) : String :=
  ⟨(trimChars (collapseWs text.data)).take 8000⟩

/-- Model of generateEmbedding: guards for blank or too-short text, then
Gemini first when configured, the catch retrying OpenAI only when Gemini
is configured alongside an OpenAI key, and the empty vector in every
remaining case; the function never throws. -/
def generateEmbedding (cfg : EmbedConfig) (o : EmbedOracles) (text : String) : List ℚ :=
  if (strTrim text).length = 0 then []
  else if (cleanEmbedText text).length < 3 then []
  else
    if cfg.geminiKey then
      match o.gemini with
      | .ok v => v
      | .error _ =>
          if cfg.openaiKey then
            match o.openai with
            | .ok w => w
            | .error _ => []
          else []
    else if cfg.openaiKey then
      match o.openai with
      | .ok w => w
      | .error _ => []
    else []

end Synapse
namespace Synapse

/-- C3 counterexample: the clause built by the code tests keywords
rather than expandedKeywords, and never tests the url: a row whose title
matches only an expanded keyword, and a row whose url alone matches a
keyword, both fail the code clause while the predicate stated by the
specification accepts them. -/
theorem c3_counterexample :
    ((keywordClause ["alpha"]).getD (fun _ => false)) ⟨"beta", none, [], none⟩ = false ∧
    keywordPredicateSpec ["beta"] ⟨"beta", none, [], none⟩ = true ∧
    ((keywordClause ["alpha"]).getD (fun _ => false))
      ⟨"t", none, [], some "https://alpha.com"⟩ = false ∧
    keywordPredicateSpec ["alpha"] ⟨"t", none, [], some "https://alpha.com"⟩ = true := by
  decide

/-- C3 as amended: the keyword conjunct is present exactly when the
parsed keywords list is nonempty, and then accepts a row exactly when
some keyword of that list (not expandedKeywords) matches the title, the
raw content, or a tag (the url is not tested). -/
theorem c3_keyword_clause (keywords : List String) (row : BookmarkRow)
    (h : keywords ≠ []) :
    keywordClause [] = (none : Option (BookmarkRow → Bool)) ∧
    ∃ p, keywordClause keywords = some p ∧
      (p row = true ↔
        (∃ k ∈ keywords, matchesCI k row.title = true) ∨
        (∃ c, row.rawContent = some c ∧ ∃ k ∈ keywords, matchesCI k c = true) ∨
        (∃ tg ∈ row.tags, ∃ k ∈ keywords, matchesCI k tg = true)) := by
  refine ⟨by simp [keywordClause], ?_⟩
  rw [keywordClause, if_neg h]
  refine ⟨_, rfl, ?_⟩
  match hrc : row.rawContent with
  | some c =>
    simp only [Bool.or_eq_true, List.any_eq_true, hrc, Option.some.injEq]
    constructor
    · rintro ((⟨k, hk, hm⟩ | hm) | ⟨tg, htg, k, hk, hm⟩)
      · exact Or.inl ⟨k, hk, hm⟩
      · rcases hm with ⟨k, hk, hm⟩
        exact Or.inr (Or.inl ⟨c, rfl, k, hk, hm⟩)
      · exact Or.inr (Or.inr ⟨tg, htg, k, hk, hm⟩)
    · rintro (⟨k, hk, hm⟩ | ⟨c2, hc2, k, hk, hm⟩ | ⟨tg, htg, k, hk, hm⟩)
      · exact Or.inl (Or.inl ⟨k, hk, hm⟩)
      · cases hc2
        exact Or.inl (Or.inr ⟨k, hk, hm⟩)
      · exact Or.inr ⟨tg, htg, k, hk, hm⟩
  | none =>
    simp only [Bool.or_eq_true, List.any_eq_true, hrc]
    constructor
    · rintro ((⟨k, hk, hm⟩ | hm) | ⟨tg, htg, k, hk, hm⟩)
      · exact Or.inl ⟨k, hk, hm⟩
      · exact absurd hm (by simp)
      · exact Or.inr (Or.inr ⟨tg, htg, k, hk, hm⟩)
    · rintro (⟨k, hk, hm⟩ | ⟨c2, hc2, _⟩ | ⟨tg, htg, k, hk, hm⟩)
      · exact Or.inl (Or.inl ⟨k, hk, hm⟩)
      · cases hc2
      · exact Or.inr ⟨tg, htg, k, hk, hm⟩

/-- C3 witness: a row titled Calculus Basics with a math tag passes the
concrete clause for the keyword math. -/
theorem c3_witness :
    ∃ p, keywordClause ["math"] = some p ∧
      p ⟨"Calculus Basics", none, ["learning", "math"], none⟩ = true := by
  obtain ⟨-, p, hp, hiff⟩ :=
    c3_keyword_clause ["math"] ⟨"Calculus Basics", none, ["learning", "math"], none⟩
      (by decide)
  exact ⟨p, hp, hiff.mpr (Or.inr (Or.inr ⟨"math", by decide, "math", by decide, by decide⟩))⟩

end Synapse
namespace Synapse

/-- The paired loop over a vector zipped with itself accumulates the
squared norm. -/
theorem zip_self_foldl (v : List ℝ) : ∀ (acc : ℝ),
    (v.zip v).foldl (fun s p => s + p.1 * p.2) acc =
    v.foldl (fun s x => s + x * x) acc := by
  induction v with
  | nil => intro acc; rfl
  | cons x v ih => intro acc; exact ih (acc + x * x)

/-- The squared-norm accumulation never decreases its accumulator. -/
theorem foldl_sumSq_le (v : List ℝ) : ∀ (acc : ℝ),
    acc ≤ v.foldl (fun s x => s + x * x) acc := by
  induction v with
  | nil => intro acc; exact le_refl acc
  | cons x v ih =>
    intro acc
    calc acc ≤ acc + x * x := le_add_of_nonneg_right (mul_self_nonneg x)
      _ ≤ v.foldl (fun s x => s + x * x) (acc + x * x) := ih _

/-- The squared norm is positive once some entry is nonzero. -/
theorem foldl_sumSq_pos (x : ℝ) (hx : x ≠ 0) : ∀ (v : List ℝ) (acc : ℝ),
    0 ≤ acc → x ∈ v → 0 < v.foldl (fun s y => s + y * y) acc := by
  intro v
  induction v with
  | nil => intro acc _ hmem; cases hmem
  | cons y v ih =>
    intro acc hacc hmem
    rcases List.mem_cons.mp hmem with hxy | hxv
    · subst hxy
      calc (0 : ℝ) < acc + x * x :=
          add_pos_of_nonneg_of_pos hacc (mul_self_pos.mpr hx)
        _ ≤ v.foldl (fun s y => s + y * y) (acc + x * x) := foldl_sumSq_le v _
    · exact ih (acc + y * y)
        (le_trans hacc (le_add_of_nonneg_right (mul_self_nonneg y))) hxv

/-- C5 as amended: cosine similarity of a vector having a nonzero entry
with itself is exactly 1, hence within the 1e-6 tolerance, and any length
mismatch yields the documented error; two zero-length vectors, however,
do not error (see the counterexample). -/
theorem c5_cosine_similarity :
    (∀ (v : List ℝ) (x : ℝ), x ∈ v → x ≠ 0 →
      ∃ r, cosineSimilarity v v = .ok r ∧ |r - 1| ≤ 1 / 1000000) ∧
    (∀ (a b : List ℝ), a.length ≠ b.length →
      cosineSimilarity a b = .error "Vectors must have same length") := by
  constructor
  · intro v x hmem hx
    have hS0 : (0 : ℝ) ≤ v.foldl (fun s y => s + y * y) 0 :=
      foldl_sumSq_le v 0
    have hSpos : (0 : ℝ) < v.foldl (fun s y => s + y * y) 0 :=
      foldl_sumSq_pos x hx v 0 (le_refl 0) hmem
    refine ⟨1, ?_, by norm_num⟩
    rw [cosineSimilarity, if_neg (by simp)]
    congr 1
    rw [zip_self_foldl]
    rw [Real.mul_self_sqrt hS0]
    exact div_self (ne_of_gt hSpos)
  · intro a b hab
    rw [cosineSimilarity, if_pos hab]

/-- C5 counterexample: on two zero-length vectors cosineSimilarity
returns a value (the JavaScript code returns NaN from 0/0) instead of
raising the documented error, which it raises only on mismatched
lengths. -/
theorem c5_counterexample :
    (cosineSimilarity ([] : List ℝ) ([] : List ℝ)).isOk = true := rfl

/-- C5 witness: a concrete self-similarity within tolerance and a
concrete mismatched-length error. -/
theorem c5_witness :
    (∃ r, cosineSimilarity [(1 : ℝ), 2] [(1 : ℝ), 2] = .ok r ∧ |r - 1| ≤ 1 / 1000000) ∧
    cosineSimilarity [(1 : ℝ)] ([] : List ℝ) = .error "Vectors must have same length" :=
  ⟨c5_cosine_similarity.1 [(1 : ℝ), 2] 1 (by simp) one_ne_zero,
   c5_cosine_similarity.2 [(1 : ℝ)] [] (by simp)⟩

/-- C6: the fallback date ranges are constants computed from the
hardcoded date 2025-11-08; the parser reads no clock, so yesterday is
always 2025-11-07, last week always 2025-11-01 to 2025-11-08, and last
month always 2025-10-08 to 2025-11-08, whatever the time of the call. -/
theorem c6_hardcoded_now :
    basicDateRange "what did I save yesterday" =
      some ⟨⟨2025, 11, 7⟩, ⟨2025, 11, 7⟩, "yesterday"⟩ ∧
    basicDateRange "papers from last week" =
      some ⟨⟨2025, 11, 1⟩, ⟨2025, 11, 8⟩, "last week"⟩ ∧
    basicDateRange "Last Month reading list" =
      some ⟨⟨2025, 10, 8⟩, ⟨2025, 11, 8⟩, "last month"⟩ ∧
    basicDateRange "recent items" = none := by decide

/-- C7: for analysable text, generateEmbedding returns the Gemini
vector whenever Gemini is configured and succeeds, retries OpenAI when
Gemini is configured but fails with an OpenAI key present, and returns
the empty vector without throwing when no provider is configured. -/
theorem c7_provider_fallback (cfg : EmbedConfig) (o : EmbedOracles) (text : String)
    (h0 : (strTrim text).length ≠ 0) (h3 : ¬ (cleanEmbedText text).length < 3) :
    (∀ v, cfg.geminiKey = true → o.gemini = .ok v →
      generateEmbedding cfg o text = v) ∧
    (∀ w, cfg.geminiKey = true → o.gemini = .error () → cfg.openaiKey = true →
      o.openai = .ok w → generateEmbedding cfg o text = w) ∧
    (cfg.geminiKey = false → cfg.openaiKey = false →
      generateEmbedding cfg o text = []) := by
  refine ⟨?_, ?_, ?_⟩
  · intro v hg hok
    simp [generateEmbedding, h0, h3, hg, hok]
  · intro w hg herr hoa hok
    simp [generateEmbedding, h0, h3, hg, herr, hoa, hok]
  · intro hg hoa
    simp [generateEmbedding, h0, h3, hg, hoa]

/-- C7 witness: the three provider-selection cases evaluated on
concrete configurations and outcomes. -/
theorem c7_witness :
    generateEmbedding ⟨true, true⟩ ⟨.ok [(1 : ℚ), 2], .ok [(3 : ℚ)]⟩ "hello world"
      = [(1 : ℚ), 2] ∧
    generateEmbedding ⟨true, true⟩ ⟨.error (), .ok [(3 : ℚ)]⟩ "hello world"
      = [(3 : ℚ)] ∧
    generateEmbedding ⟨false, false⟩ ⟨.error (), .error ()⟩ "hello world" = [] := by
  refine ⟨?_, ?_, ?_⟩
  · exact (c7_provider_fallback ⟨true, true⟩ ⟨.ok [(1 : ℚ), 2], .ok [(3 : ℚ)]⟩
      "hello world" (by decide) (by decide)).1 _ rfl rfl
  · exact (c7_provider_fallback ⟨true, true⟩ ⟨.error (), .ok [(3 : ℚ)]⟩
      "hello world" (by decide) (by decide)).2.1 _ rfl rfl rfl rfl
  · exact (c7_provider_fallback ⟨false, false⟩ ⟨.error (), .error ()⟩
      "hello world" (by decide) (by decide)).2.2 rfl rfl

end Synapse
